import Mathlib

/-!
Verification development for the `elasticsearch-replay` record/replay
transport (`elasticsearch_replay/transport.py`).

The embedding models, faithfully to the source:
* the transcript codec (`RecordTransport.format_request`,
  `RecordTransport.format_response`, the end sentinel, and the decoding
  generator `ReplayTransport.create_replay_iterator` /
  `ReplayTransport.get_whole_request_info`),
* the match verifier (`ReplayTransport.check_match`),
* the replay state machine (`ReplayTransport.get_next_replay`,
  `ReplayTransport.perform_request`, `ReplayTransport.reset_replay_log`,
  `ReplayTransport.__init__` / `prepare_output_file`),
* the recording interceptor (`RecordTransport.perform_request`).

External collaborators (the elasticsearch JSON serializer, `urllib.urlencode`,
file handles, the connection) are modelled by explicit parameters and small
executable stand-ins, as the spec's collaborator contract prescribes.
Python strings are Lean `String`s (lists of characters); Python file
iteration is modelled by splitting the file content after each newline.
-/

namespace ESReplay

/-- Decidable equality on `Except`, used to evaluate concrete runs. -/
instance {ε α : Type} [DecidableEq ε] [DecidableEq α] : DecidableEq (Except ε α) := fun a b =>
  match a, b with
  | .ok x, .ok y =>
    if h : x = y then .isTrue (by rw [h]) else .isFalse (by simp [h])
  | .error x, .error y =>
    if h : x = y then .isTrue (by rw [h]) else .isFalse (by simp [h])
  | .ok _, .error _ => .isFalse (by simp)
  | .error _, .ok _ => .isFalse (by simp)

/-! ## Payload values

A model of the Python values that flow through the transport as request and
response bodies: `None`, strings, integers, and JSON-style objects whose
values are scalars.  Python `dict` equality is modelled as list equality of
the key/value pairs (order-sensitive; sufficient for the payload shapes the
program exercises). -/

inductive Prim where
  | pnull
  | pstr (s : String)
  | pnum (n : Int)
deriving DecidableEq, Repr

inductive Data where
  | null
  | str (s : String)
  | num (n : Int)
  | obj (kvs : List (String × Prim))
deriving DecidableEq, Repr

/-- Python truthiness of a payload value (`if body:` in the source). -/
def truthy : Data → Bool
  | .null => false
  | .str s => !(s == "")
  | .num n => !(n == 0)
  | .obj kvs => !kvs.isEmpty

/-! ## Character-level string utilities

Models of the Python string operations the transport uses, written over
`List Char` so they are executable and provable. -/

/-- Python `s.split(c)` for a single-character separator: split on every
occurrence, keeping empty fragments (`''.split(' ') == ['']`). -/
def splitCharList (c : Char) : List Char → List (List Char)
  | [] => [[]]
  | x :: xs =>
    if x = c then [] :: splitCharList c xs
    else
      match splitCharList c xs with
      | [] => [[x]]
      | l :: ls => (x :: l) :: ls

/-- Python `sep.join(parts)`. -/
def joinSep (sep : String) : List String → String
  | [] => ""
  | [x] => x
  | x :: xs => x ++ sep ++ joinSep sep xs

/-- Python file iteration: split the content into lines, each line keeping
its trailing newline; a final fragment without a newline is kept only if
non-empty. -/
def splitLinesList : List Char → List (List Char)
  | [] => []
  | c :: cs =>
    if c = '\n' then ['\n'] :: splitLinesList cs
    else
      match splitLinesList cs with
      | [] => [[c]]
      | l :: ls => (c :: l) :: ls

/-- File content (a Python string) to the list of its lines. -/
def splitLinesStr (s : String) : List String :=
  (splitLinesList s.toList).map String.mk

/-- Python `s.split(c)` on strings. -/
def pySplitChar (c : Char) (s : String) : List String :=
  (splitCharList c s.toList).map String.mk

/-- Python `s.rstrip('\n')` on character lists. -/
def rstripChars (l : List Char) : List Char :=
  (l.reverse.dropWhile (fun c => c == '\n')).reverse

/-- Python `s.rstrip('\n')`. -/
def rstripNL (s : String) : String :=
  String.mk (rstripChars s.toList)

/-- Python `s.startswith(p)`. -/
def pyStartsWith (p s : String) : Bool :=
  p.toList.isPrefixOf s.toList

/-- Python `s[n:]`. -/
def pyDrop (n : Nat) (s : String) : String :=
  String.mk (s.toList.drop n)

/-- Python `s.endswith('\n')` (single-character suffix). -/
def endsWithNL (s : String) : Bool :=
  s.toList.getLast? == some '\n'

/-! ## Decimal integers

A model of Python `str(int)` rendering and `int(str)` parsing, with a
proved round trip. -/

/-- Digits of `n`, least significant first; the first argument is fuel
(any value above `n` suffices). -/
def digitsRevF : Nat → Nat → List Char
  | 0, _ => []
  | fuel + 1, n =>
    if n < 10 then [Nat.digitChar n]
    else Nat.digitChar (n % 10) :: digitsRevF fuel (n / 10)

/-- Python `str(n)` for a natural number. -/
def natToStr (n : Nat) : String :=
  String.mk (digitsRevF (n + 1) n).reverse

/-- Python `str(i)` for an integer. -/
def intToStr (i : Int) : String :=
  if i < 0 then "-" ++ natToStr i.natAbs else natToStr i.toNat

/-- Parse a digit string, most significant first, accumulating. -/
def parseDigits : List Char → Nat → Option Nat
  | [], acc => some acc
  | c :: cs, acc =>
    if c.isDigit then parseDigits cs (acc * 10 + (c.toNat - 48)) else none

/-- Python `int(s)` for a non-negative literal; empty input is an error. -/
def parseNatList : List Char → Option Nat
  | [] => none
  | l => parseDigits l 0

/-- Python `int(s)`: optional leading minus sign, then digits. -/
def parseInt (s : String) : Option Int :=
  match s.toList with
  | [] => none
  | c :: rest =>
    if c = '-' then (parseNatList rest).map (fun n => -(n : Int))
    else (parseNatList (c :: rest)).map (fun n => (n : Int))

/-! ## The JSON collaborator

A model of the host library's `JSONSerializer`: `dumps` does not serialize
strings (they pass through) and renders other values as JSON with the
Python 2 default separators; `loads` parses JSON, returning `none` where the
collaborator would raise `SerializationError`.  The parser accepts the
scalar-and-flat-object payload shapes the program exchanges. -/

def quoteStr (s : String) : String := "\"" ++ s ++ "\""

def primDumps : Prim → String
  | .pnull => "null"
  | .pstr s => quoteStr s
  | .pnum n => intToStr n

/-- Python 2 `json.dumps` on a payload value. -/
def jsonDumps : Data → String
  | .null => "null"
  | .str s => quoteStr s
  | .num n => intToStr n
  | .obj kvs =>
    "\x7b" ++ joinSep ", " (kvs.map fun kv => quoteStr kv.1 ++ ": " ++ primDumps kv.2) ++ "\x7d"

/-- JSON whitespace skipping. -/
def skipWs : List Char → List Char
  | [] => []
  | c :: cs => if c = ' ' ∨ c = '\n' ∨ c = '\t' ∨ c = '\r' then skipWs cs else c :: cs

/-- Parse a JSON string literal after the opening quote (no escapes). -/
def parseStrChars : List Char → Option (List Char × List Char)
  | [] => none
  | c :: cs =>
    if c = '"' then some ([], cs)
    else (parseStrChars cs).map (fun p => (c :: p.1, p.2))

/-- Parse a run of digits (at least one). -/
def parseNumChars : List Char → Option (Nat × List Char)
  | [] => none
  | c :: cs =>
    if c.isDigit then
      match parseNumChars cs with
      | some (n, rest) => some ((c.toNat - 48) * 10 ^ (cs.length - rest.length) + n, rest)
      | none => some (c.toNat - 48, cs)
    else none

/-- Parse a JSON scalar (null, string, or integer). -/
def parseScalar (l : List Char) : Option (Prim × List Char) :=
  match skipWs l with
  | '"' :: cs => (parseStrChars cs).map (fun p => (.pstr (String.mk p.1), p.2))
  | 'n' :: 'u' :: 'l' :: 'l' :: cs => some (.pnull, cs)
  | '-' :: cs => (parseNumChars cs).map (fun p => (.pnum (-(p.1 : Int)), p.2))
  | cs =>
    (parseNumChars cs).map (fun p => (.pnum (p.1 : Int), p.2))

/-- Parse the members of a JSON object after the opening brace; the first
argument is fuel. -/
def parseMembers : Nat → List Char → Option (List (String × Prim) × List Char)
  | 0, _ => none
  | fuel + 1, l =>
    match skipWs l with
    | '"' :: cs =>
      match parseStrChars cs with
      | none => none
      | some (key, rest) =>
        match skipWs rest with
        | ':' :: rest2 =>
          match parseScalar rest2 with
          | none => none
          | some (v, rest3) =>
            match skipWs rest3 with
            | ',' :: rest4 =>
              (parseMembers fuel rest4).map (fun p => ((String.mk key, v) :: p.1, p.2))
            | '}' :: rest4 => some ([(String.mk key, v)], rest4)
            | _ => none
        | _ => none
    | _ => none

/-- Parse a JSON value: scalar or flat object. -/
def parseValue (fuel : Nat) (l : List Char) : Option (Data × List Char) :=
  match skipWs l with
  | '{' :: cs =>
    match skipWs cs with
    | '}' :: rest => some (.obj [], rest)
    | _ => (parseMembers fuel cs).map (fun p => (.obj p.1, p.2))
  | cs =>
    (parseScalar cs).map fun p =>
      (match p.1 with
        | .pnull => .null
        | .pstr s => .str s
        | .pnum n => .num n, p.2)

/-- Python 2 `json.loads`: `none` models a raised `ValueError`, which the
collaborator wraps as `SerializationError`. -/
def jsonLoads (s : String) : Option Data :=
  match parseValue (s.length + 1) s.toList with
  | some (d, rest) => if skipWs rest = [] then some d else none
  | none => none

/-- The serializer collaborator contract: `dumps` may fail
(`SerializationError` is `none`), `loads` may fail (`none`). -/
structure Serializer where
  dumps : Data → Option String
  loads : String → Option Data

/-- The concrete `JSONSerializer` collaborator: strings are not serialized,
other values go through the JSON encoder. -/
def esSerializer : Serializer where
  dumps
    | .str s => some s
    | d => some (jsonDumps d)
  loads := jsonLoads

/-! ## urlencode and the transcript markers -/

/-- Model of `urllib.urlencode` on an ordered parameter mapping (rendered as
`key=value` pairs joined with ampersands; percent-escaping of the
collaborator is not modelled). -/
def urlencode (params : List (String × String)) : String :=
  joinSep "&" (params.map fun kv => kv.1 ++ "=" ++ kv.2)

/-- Request marker (`IN` in the source). -/
def IN : String := "#> "

/-- Response marker (`OUT` in the source). -/
def OUT : String := "#< "

/-- End-of-record sentinel line (`END` in the source). -/
def END : String := "##\n"

/-! ## Transcript codec: encoding (`RecordTransport`) -/

namespace RecordTransport

/-- `RecordTransport.format_request`: serialize the request body when
truthy, join its lines with the request marker, render the params or `-`,
and emit the marker-prefixed header and body lines.  `none` models a
`SerializationError` escaping from `self.serializer.dumps`. -/
def format_request (ser : Serializer) (method url : String)
    (params : List (String × String)) (body : Data) : Option String :=
  match (if truthy body then (ser.dumps body).map some else some none) with
  | none => none
  | some bodyOpt =>
    let out_body :=
      match bodyOpt with
      | some b => if b ≠ "" then joinSep ("\n" ++ IN) (pySplitChar '\n' b) else "-"
      | none => "-"
    let out_params := if params.isEmpty then "-" else urlencode params
    some (IN ++ method ++ " " ++ url ++ " " ++ out_params ++ "\n" ++ IN ++ out_body ++ "\n")

/-- `RecordTransport.format_response`: serialize the response body
unconditionally, join its lines with the response marker, and emit the
marker-prefixed status and body lines. -/
def format_response (ser : Serializer) (status : Int) (body : Data) : Option String :=
  (ser.dumps body).map fun b =>
    let out_body := if b ≠ "" then joinSep ("\n" ++ OUT) (pySplitChar '\n' b) else "-"
    OUT ++ intToStr status ++ "\n" ++ OUT ++ out_body ++ "\n"

/-- The end-of-record chunk written after a response: a newline is prepended
only when the response chunk does not already end with one. -/
def endMark (resp : String) : String :=
  (if endsWithNL resp then "" else "\n") ++ END

end RecordTransport

/-! ## Transcript codec: decoding (`ReplayTransport`) -/

/-- A decoded exchange, as built by
`ReplayTransport.get_whole_request_info`: request method, url and params
token, best-effort-deserialized request body, integer status, and the (still
serialized) response body. -/
structure Info where
  method : String
  url : String
  params : String
  body : Data
  status : Int
  response : String
deriving DecidableEq, Repr

/-- Decode errors inside the generator: `indexError` models an `IndexError`
(missing header line), `valueError` models a `ValueError` (wrong token count
in the request header, or an unparsable status). -/
inductive PErr where
  | indexError
  | valueError
deriving DecidableEq, Repr

/-- The `rstrip('\n')` pass of `get_whole_request_info` applied to a decoded
body: only string values are stripped. -/
def stripIfStr : Data → Data
  | .str s => .str (rstripNL s)
  | d => d

namespace ReplayTransport

/-- `ReplayTransport.get_whole_request_info`: split the request header into
exactly three tokens, join the remaining request lines into the body text,
best-effort deserialize it (unless it is the absent-body placeholder
`-` line), strip trailing newlines from every string field, and parse the
status as an integer. -/
def get_whole_request_info (ser : Serializer) (req resp : List String) :
    Except PErr Info :=
  match req with
  | [] => .error .indexError
  | hd :: tl =>
    match pySplitChar ' ' hd with
    | [method, url, params] =>
      let body := joinSep "\n" tl
      match resp with
      | [] => .error .indexError
      | sh :: st =>
        let response := joinSep "\n" st
        let deserialized : Data :=
          if body ≠ "-\n" then
            match ser.loads body with
            | some d => d
            | none => .str body
          else .str body
        match parseInt (rstripNL sh) with
        | some n =>
          .ok { method := rstripNL method, url := rstripNL url,
                params := rstripNL params, body := stripIfStr deserialized,
                status := n, response := rstripNL response }
        | none => .error .valueError
    | _ => .error .valueError

/-- The body of the `create_replay_iterator` generator: scan lines, bucket
marker-prefixed lines into the request or response buffer, flush both
buffers into an exchange at each sentinel line, and silently skip any other
line.  An error raised while flushing ends the generator (a Python generator
that raises is finished), so an error entry is always last. -/
def scanLines (ser : Serializer) : List String → List String → List String →
    List (Except PErr Info)
  | _req, _resp, [] => []
  | req, resp, line :: rest =>
    if line = END then
      match get_whole_request_info ser req resp with
      | .ok info => .ok info :: scanLines ser [] [] rest
      | .error e => [.error e]
    else if pyStartsWith IN line then scanLines ser (req ++ [pyDrop 3 line]) resp rest
    else if pyStartsWith OUT line then scanLines ser req (resp ++ [pyDrop 3 line]) rest
    else scanLines ser req resp rest

/-- `ReplayTransport.create_replay_iterator` applied to a list of file
lines, materialized: the sequence of values the generator yields, ended
early by at most one error entry. -/
def replayOf (ser : Serializer) (lines : List String) : List (Except PErr Info) :=
  scanLines ser [] [] lines

/-! ## Match verifier -/

/-- The comparison record `current` built by `get_next_replay` from the
incoming call. -/
structure Current where
  method : String
  url : String
  params : String
  body : Data
deriving DecidableEq, Repr

/-- The field-by-field comparison loop of `check_match`: on the first
unequal pair, log the two differing values and stop with `false`. -/
def checkFields : List (Data × Data) → Bool × List (Data × Data)
  | [] => (true, [])
  | (v, r) :: rest => if v = r then checkFields rest else (false, [(v, r)])

/-- The pairs `(current[key], replay[key])` that `check_match` compares, in
iteration order of the `current` record. -/
def matchPairs (replay : Info) (current : Current) : List (Data × Data) :=
  [(.str current.method, .str replay.method),
   (.str current.url, .str replay.url),
   (.str current.params, .str replay.params),
   (current.body, replay.body)]

/-- `ReplayTransport.check_match`: exact equality on every field of the
comparison record against the decoded exchange, short-circuiting on the
first mismatch; the second component is the diagnostic log. -/
def check_match (replay : Info) (current : Current) : Bool × List (Data × Data) :=
  checkFields (matchPairs replay current)

/-- The `current` dict built by `get_next_replay` from the incoming call. -/
def mkCurrent (method url : String) (params : List (String × String))
    (body : Data) : Current :=
  { method := method, url := url,
    params := if params.isEmpty then "-" else urlencode params,
    body := if truthy body then body else .str "-" }

/-! ## Replay state machine -/

/-- Errors raised by the replay path: the three transport-specific errors
from `exceptions.py`, an uncaught `SerializationError` (from deserializing a
stored response or serializing the incoming body), and the non-2xx error the
connection collaborator raises from `_raise_error(status, data)`. -/
inductive RErr where
  | replayLogExceeded
  | replayFileParse (e : PErr)
  | requestMatch
  | serialization
  | raiseError (status : Int) (data : Data)
deriving DecidableEq, Repr

/-- `ReplayTransport.get_next_replay`: pull the next decoded exchange
(`StopIteration` becomes `ReplayLogExceededError`, any other generator
exception becomes `ReplayFileParseError` wrapping it, and a dead generator
yields nothing further), verify the incoming call against it, and on a match
return the stored status with the deserialized stored response.  The second
component is the remaining iterator. -/
def get_next_replay (ser : Serializer) (st : List (Except PErr Info))
    (method url : String) (params : List (String × String)) (body : Data) :
    Except RErr (Int × Data) × List (Except PErr Info) :=
  match st with
  | [] => (.error .replayLogExceeded, [])
  | .error e :: rest => (.error (.replayFileParse e), rest)
  | .ok data :: rest =>
    if (check_match data (mkCurrent method url params body)).1 then
      match ser.loads data.response with
      | some d => (.ok (data.status, d), rest)
      | none => (.error .serialization, rest)
    else (.error .requestMatch, rest)

/-- The body normalization at the top of `ReplayTransport.perform_request`:
serialize the incoming body, then opportunistically deserialize the result,
keeping the serialized text if deserialization fails.  `none` models the
uncaught `SerializationError` from `dumps`. -/
def normalizeBody (ser : Serializer) (body : Data) : Option Data :=
  (ser.dumps body).map fun s =>
    if s ≠ "" then
      match ser.loads s with
      | some d => d
      | none => .str s
    else .str s

/-- The live-service connection collaborator; the replay path never invokes
its `perform_request`, so the model only records its call log. -/
structure Connection where
  calls : List (String × String × List (String × String) × Data)
deriving DecidableEq, Repr

/-- `ReplayTransport.perform_request`: normalize the incoming body, pull and
verify the next recorded exchange, and return the stored `(status, data)`
for a 2xx status, or delegate to the connection's `_raise_error` hook (which
raises) for any other status.  The connection is returned unchanged: no live
call is ever made. -/
def perform_request (ser : Serializer) (conn : Connection)
    (st : List (Except PErr Info)) (method url : String)
    (params : List (String × String)) (body : Data) :
    Except RErr (Int × Data) × List (Except PErr Info) × Connection :=
  match normalizeBody ser body with
  | none => (.error .serialization, st, conn)
  | some nb =>
    match get_next_replay ser st method url params nb with
    | (.error e, st') => (.error e, st', conn)
    | (.ok (status, data), st') =>
      if 200 ≤ status ∧ status < 300 then (.ok (status, data), st', conn)
      else (.error (.raiseError status data), st', conn)

/-! ## Replay transport state: file handle, reset, construction -/

/-- A read handle on the transcript: the file content and the current
position (`seek(0)` moves the position to the start; the replay side never
writes). -/
structure RFile where
  content : String
  pos : Nat
deriving DecidableEq, Repr

/-- Python `f.seek(0)`. -/
def RFile.seek0 (f : RFile) : RFile := { f with pos := 0 }

/-- The lines still ahead of the handle's position. -/
def RFile.linesFrom (f : RFile) : List String :=
  splitLinesStr (String.mk (f.content.toList.drop f.pos))

/-- `ReplayTransport.create_replay_iterator`: a cursor over the decoded
exchanges of the transcript read from the handle's current position. -/
def create_replay_iterator (ser : Serializer) (f : RFile) : List (Except PErr Info) :=
  scanLines ser [] [] f.linesFrom

/-- The replay transport's mutable state: the read handle and the replay
cursor. -/
structure State where
  recfile : RFile
  replay_iterator : List (Except PErr Info)
deriving Repr

/-- `ReplayTransport.reset_replay_log`: seek the handle to the start and
rebuild the cursor. -/
def reset_replay_log (ser : Serializer) (t : State) : State :=
  let f := t.recfile.seek0
  { recfile := f, replay_iterator := create_replay_iterator ser f }

/-- A cursor pull at transport level: `get_next_replay` advancing the stored
iterator (the handle is not touched). -/
def pull (ser : Serializer) (t : State) (method url : String)
    (params : List (String × String)) (body : Data) :
    Except RErr (Int × Data) × State :=
  match get_next_replay ser t.replay_iterator method url params body with
  | (r, rest) => (r, { t with replay_iterator := rest })

/-- The arguments of one replayed call. -/
structure PullArgs where
  method : String
  url : String
  params : List (String × String)
  body : Data

/-- A sequence of cursor pulls, threading the transport state. -/
def applyPulls (ser : Serializer) : List PullArgs → State → State
  | [], t => t
  | a :: as, t => applyPulls ser as (pull ser t a.method a.url a.params a.body).2

/-- The `recfile` constructor option: absent or `None`, a path string, or an
already-open handle. -/
inductive RecfileOpt where
  | noneOpt
  | path (s : String)
  | handle (f : RFile)

/-- `ReplayTransport.prepare_output_file`: open a non-empty path for
reading (`fs` models the file system), map an empty path to `None`, and pass
any non-string object (including `None`) through unchanged. -/
def prepare_output_file (fs : String → RFile) : RecfileOpt → Option RFile
  | .noneOpt => none
  | .path s => if s ≠ "" then some (fs s) else none
  | .handle f => some f

/-- `AttributeError` from calling `seek` on `None`. -/
inductive InitErr where
  | attributeError
deriving DecidableEq, Repr

/-- `ReplayTransport.__init__`: prepare the handle from the `recfile`
option, then immediately `reset_replay_log`, which calls `seek(0)` on the
handle — raising `AttributeError` when the handle is `None` — and builds the
cursor.  All of this happens before the underlying transport is set up. -/
def init (ser : Serializer) (fs : String → RFile) (opt : RecfileOpt) :
    Except InitErr State :=
  match prepare_output_file fs opt with
  | none => .error .attributeError
  | some f =>
    let f := f.seek0
    .ok { recfile := f, replay_iterator := create_replay_iterator ser f }

end ReplayTransport

/-! ## Recording interceptor -/

namespace RecordTransport

/-- A transport-level failure of the live call (`TransportError`), carrying
the status and body in `args[0]`, `args[1]`. -/
structure TErr where
  status : Int
  data : Data
deriving DecidableEq, Repr

/-- A write handle on the transcript store.  `failOn` models I/O errors: the
`k`-th write or flush raises iff `failOn k`; a failed operation writes
nothing. -/
structure Handle where
  chunks : List String
  wcount : Nat
  failOn : Nat → Bool

/-- Python `f.write(s)`; `none` models a raised `IOError`. -/
def Handle.write (h : Handle) (s : String) : Option Handle :=
  if h.failOn h.wcount then none
  else some { chunks := h.chunks ++ [s], wcount := h.wcount + 1, failOn := h.failOn }

/-- Python `f.flush()`; `none` models a raised `IOError`. -/
def Handle.flush (h : Handle) : Option Handle :=
  if h.failOn h.wcount then none
  else some { h with wcount := h.wcount + 1 }

/-- The `try` block of `RecordTransport.perform_request` that appends the
formatted request, response and end marker and flushes.  Any exception —
a `SerializationError` from a formatter or an `IOError` from a write — is
swallowed (`logger.exception` only): the handle keeps whatever was written
before the failure. -/
def logExchange (ser : Serializer) (h : Handle) (method url : String)
    (params : List (String × String)) (body : Data) (status : Int)
    (data : Data) : Handle :=
  match format_request ser method url params body with
  | none => h
  | some req =>
    match h.write req with
    | none => h
    | some h1 =>
      match format_response ser status data with
      | none => h1
      | some resp =>
        match h1.write resp with
        | none => h1
        | some h2 =>
          match h2.write (endMark resp) with
          | none => h2
          | some h3 => (h3.flush).getD h3

/-- `RecordTransport.perform_request`: perform the real call (its outcome,
success or `TransportError`, is the `live` argument), extract `(status,
data)` from either outcome, attempt the transcript logging step when a
record file is configured, then re-raise the original failure or return the
original tuple. -/
def perform_request (ser : Serializer) (live : Except TErr (Int × Data))
    (recfile : Option Handle) (method url : String)
    (params : List (String × String)) (body : Data) :
    Except TErr (Int × Data) × Option Handle :=
  let status : Int := match live with | .ok (s, _) => s | .error e => e.status
  let data : Data := match live with | .ok (_, d) => d | .error e => e.data
  let recfile' : Option Handle :=
    match recfile with
    | none => none
    | some h => some (logExchange ser h method url params body status data)
  (match live with
   | .ok _ => .ok (status, data)
   | .error e => .error e, recfile')

/-- The full encoded form of one exchange, exactly as the logging step
writes it: formatted request, then formatted response, then the end
marker. -/
def encodeRecord (ser : Serializer) (method url : String)
    (params : List (String × String)) (body : Data) (status : Int)
    (respBody : Data) : Option String :=
  match format_request ser method url params body with
  | none => none
  | some req =>
    match format_response ser status respBody with
    | none => none
    | some resp => some (req ++ resp ++ endMark resp)

end RecordTransport

/-! ## Encoded-exchange descriptions used by the round-trip statements -/

/-- The input side of one exchange: what a recorded call consists of. -/
structure ExchangeIn where
  method : String
  url : String
  params : List (String × String)
  body : Data
  status : Int
  response : Data

/-- The params token as the codec renders it: a query-string-like token, or
`-` when the mapping is empty. -/
def paramsToken (params : List (String × String)) : String :=
  if params.isEmpty then "-" else urlencode params

/-- The single body line the encoder emits for a request body: the
serialized body when truthy and non-empty, the placeholder `-` otherwise;
`none` when serialization fails. -/
def bodyLine (ser : Serializer) (body : Data) : Option String :=
  match (if truthy body then (ser.dumps body).map some else some none) with
  | none => none
  | some (some b) => some (if b ≠ "" then b else "-")
  | some none => some "-"

/-- The single body line the encoder emits for a response body. -/
def respLine (ser : Serializer) (respBody : Data) : Option String :=
  (ser.dumps respBody).map fun b => if b ≠ "" then b else "-"

/-- Absence of newlines, decidably. -/
def noNL (s : String) : Bool := decide ('\n' ∉ s.toList)

/-- Absence of spaces, decidably. -/
def noSp (s : String) : Bool := decide (' ' ∉ s.toList)

/-- Well-formedness of an exchange for single-line transcript encoding:
method, url and params token contain no spaces or newlines, and both bodies
serialize to a single line. -/
def WF (ser : Serializer) (x : ExchangeIn) : Bool :=
  noNL x.method && noSp x.method && noNL x.url && noSp x.url &&
  noNL (paramsToken x.params) && noSp (paramsToken x.params) &&
  (match bodyLine ser x.body with
   | some bl => noNL bl
   | none => false) &&
  (match respLine ser x.response with
   | some rl => noNL rl
   | none => false)

/-- The decoded exchange the round trip promises: method, url, params token
and status come back exactly; the response comes back in serialized form;
the body comes back modulo trailing-newline stripping and best-effort
deserialization of the recorded body text. -/
def expectedInfo (ser : Serializer) (x : ExchangeIn) : Info :=
  let bl := (bodyLine ser x.body).getD ""
  let rl := (respLine ser x.response).getD ""
  { method := x.method, url := x.url, params := paramsToken x.params,
    body :=
      if bl = "-" then .str "-"
      else stripIfStr (match ser.loads (bl ++ "\n") with
                       | some d => d
                       | none => .str (bl ++ "\n")),
    status := x.status, response := rl }

/-- `encodeRecord` over an `ExchangeIn`. -/
def encodeX (ser : Serializer) (x : ExchangeIn) : Option String :=
  RecordTransport.encodeRecord ser x.method x.url x.params x.body x.status x.response

/-- Concatenation of the encoded records of a whole run, as the record
transport appends them. -/
def encodeAll (ser : Serializer) : List ExchangeIn → Option String
  | [] => some ""
  | x :: xs =>
    match encodeX ser x, encodeAll ser xs with
    | some a, some b => some (a ++ b)
    | _, _ => none

/-- The result of the `k`-th pull (0-based) on a fresh cursor, with the
error mapping of `get_next_replay`: an exhausted generator is
`ReplayLogExceededError`, a generator that raised is `ReplayFileParseError`
and yields nothing further. -/
def pullAt : List (Except PErr Info) → Nat → Except ReplayTransport.RErr Info
  | [], _ => .error .replayLogExceeded
  | .error e :: _, _ => .error (.replayFileParse e)
  | .ok d :: _, 0 => .ok d
  | .ok _ :: rest, k + 1 => pullAt rest k

/-! ## Utility lemmas: splitting, joining, stripping -/

theorem toList_append (a b : String) : (a ++ b).toList = a.toList ++ b.toList :=
  String.data_append a b

theorem mk_eq_mk {a b : List Char} : String.mk a = String.mk b ↔ a = b :=
  ⟨congrArg String.data, congrArg String.mk⟩

theorem mk_toList (s : String) : String.mk s.toList = s := rfl

theorem joinSep_single (sep : String) (x : String) : joinSep sep [x] = x := rfl

theorem splitCharList_of_not_mem {c : Char} {l : List Char} (h : c ∉ l) :
    splitCharList c l = [l] := by
  induction l with
  | nil => rfl
  | cons x xs ih =>
    have hx : x ≠ c := fun e => h (e ▸ List.mem_cons_self x xs)
    have hxs : c ∉ xs := fun m => h (List.mem_cons_of_mem x m)
    simp [splitCharList, hx, ih hxs]

theorem splitCharList_append_sep {c : Char} {a : List Char} (b : List Char)
    (h : c ∉ a) : splitCharList c (a ++ c :: b) = a :: splitCharList c b := by
  induction a with
  | nil => simp [splitCharList]
  | cons x xs ih =>
    have hx : x ≠ c := fun e => h (e ▸ List.mem_cons_self x xs)
    have hxs : c ∉ xs := fun m => h (List.mem_cons_of_mem x m)
    simp only [List.cons_append, splitCharList, if_neg hx, List.append_eq, ih hxs]

theorem splitLinesList_newline {a : List Char} (b : List Char)
    (h : '\n' ∉ a) : splitLinesList (a ++ '\n' :: b) = (a ++ ['\n']) :: splitLinesList b := by
  induction a with
  | nil => simp [splitLinesList]
  | cons x xs ih =>
    have hx : x ≠ '\n' := fun e => h (e ▸ List.mem_cons_self x xs)
    have hxs : '\n' ∉ xs := fun m => h (List.mem_cons_of_mem x m)
    simp only [List.cons_append, splitLinesList, if_neg hx, List.append_eq, ih hxs]

theorem splitLinesList_ne_nil {l : List Char} (h : l ≠ []) :
    splitLinesList l ≠ [] := by
  match l with
  | c :: cs =>
    by_cases hc : c = '\n'
    · simp [splitLinesList, hc]
    · simp only [splitLinesList, if_neg hc]
      cases splitLinesList cs <;> simp

theorem splitLinesList_append {a : List Char} (b : List Char)
    (h : a = [] ∨ a.getLast? = some '\n') :
    splitLinesList (a ++ b) = splitLinesList a ++ splitLinesList b := by
  induction a with
  | nil => simp [splitLinesList]
  | cons x xs ih =>
    rcases h with h | h
    · exact absurd h (by simp)
    · cases xs with
      | nil =>
        have hx : x = '\n' := by simpa using h
        subst hx
        simp [splitLinesList]
      | cons y ys =>
        have hlast : (y :: ys).getLast? = some '\n' := by
          rwa [List.getLast?_cons_cons] at h
        have h1 : splitLinesList (y :: ys ++ b) =
            splitLinesList (y :: ys) ++ splitLinesList b := ih (Or.inr hlast)
        have h2 : splitLinesList (y :: ys) ≠ [] := splitLinesList_ne_nil (by simp)
        by_cases hx : x = '\n'
        · subst hx
          have e : ∀ m, splitLinesList ('\n' :: m) = ['\n'] :: splitLinesList m :=
            fun m => by simp [splitLinesList]
          show splitLinesList ('\n' :: ((y :: ys) ++ b)) = _
          rw [e, e, h1]
          simp
        · obtain ⟨l, ls, hsp⟩ : ∃ l ls, splitLinesList (y :: ys) = l :: ls := by
            cases hsp : splitLinesList (y :: ys) with
            | nil => exact absurd hsp h2
            | cons l ls => exact ⟨l, ls, rfl⟩
          have e : ∀ m, splitLinesList (x :: m) =
              match splitLinesList m with
              | [] => [[x]]
              | l :: ls => (x :: l) :: ls :=
            fun m => by simp [splitLinesList, if_neg hx]
          show splitLinesList (x :: ((y :: ys) ++ b)) = _
          rw [e, e, h1, hsp]
          simp

theorem rstripChars_concat_newline (l : List Char) :
    rstripChars (l ++ ['\n']) = rstripChars l := by
  simp [rstripChars, List.dropWhile]

theorem rstripChars_of_not_mem {l : List Char} (h : '\n' ∉ l) :
    rstripChars l = l := by
  unfold rstripChars
  have hd : l.reverse.dropWhile (fun c => c == '\n') = l.reverse := by
    cases hr : l.reverse with
    | nil => rfl
    | cons x xs =>
      have hx : ¬ ((x == '\n') = true) := by
        simp only [beq_iff_eq]
        intro e
        apply h
        have hm : x ∈ l.reverse := by rw [hr]; exact List.mem_cons_self x xs
        rw [List.mem_reverse] at hm
        exact e ▸ hm
      rw [List.dropWhile_cons, if_neg hx]
  rw [hd, List.reverse_reverse]

theorem rstripNL_concat (s : String) :
    rstripNL (s ++ "\n") = rstripNL s := by
  unfold rstripNL
  rw [toList_append]
  show String.mk (rstripChars (s.toList ++ ['\n'])) = _
  rw [rstripChars_concat_newline]

theorem rstripNL_of_noNL {s : String} (h : noNL s = true) : rstripNL s = s := by
  unfold rstripNL
  rw [rstripChars_of_not_mem (by simpa [noNL] using h)]
  exact mk_toList s

/-! ## Decimal round-trip lemmas -/

theorem digitsRevF_isDigit : ∀ (f n : Nat), ∀ c ∈ digitsRevF f n, c.isDigit = true := by
  intro f
  induction f with
  | zero => intro n c hc; simp [digitsRevF] at hc
  | succ f ih =>
    intro n c hc
    by_cases h10 : n < 10
    · simp only [digitsRevF, if_pos h10, List.mem_singleton] at hc
      subst hc
      interval_cases n <;> decide
    · simp only [digitsRevF, if_neg h10, List.mem_cons] at hc
      rcases hc with rfl | hc
      · have hm : n % 10 < 10 := Nat.mod_lt _ (by omega)
        interval_cases h : n % 10 <;> simp_all <;> decide
      · exact ih (n / 10) c hc

theorem isDigit_ne_newline {c : Char} (h : c.isDigit = true) : c ≠ '\n' :=
  fun e => absurd (e ▸ h) (by decide)

theorem isDigit_ne_space {c : Char} (h : c.isDigit = true) : c ≠ ' ' :=
  fun e => absurd (e ▸ h) (by decide)

theorem isDigit_ne_minus {c : Char} (h : c.isDigit = true) : c ≠ '-' :=
  fun e => absurd (e ▸ h) (by decide)

theorem digitsRevF_ne_nil (f n : Nat) (h : 0 < f) : digitsRevF f n ≠ [] := by
  cases f with
  | zero => omega
  | succ f =>
    by_cases h10 : n < 10 <;> simp [digitsRevF, h10]

theorem parseDigits_append : ∀ (a b : List Char) (acc : Nat),
    parseDigits (a ++ b) acc =
      match parseDigits a acc with
      | some n => parseDigits b n
      | none => none := by
  intro a
  induction a with
  | nil => intro b acc; rfl
  | cons c cs ih =>
    intro b acc
    by_cases hc : c.isDigit
    · simp only [List.cons_append, parseDigits, if_pos hc]
      exact ih b (acc * 10 + (c.toNat - 48))
    · simp only [List.cons_append, parseDigits, if_neg hc]

theorem parseDigits_digitsRevF : ∀ (f n acc : Nat), n < f →
    parseDigits (digitsRevF f n).reverse acc =
      some (acc * 10 ^ (digitsRevF f n).length + n) := by
  intro f
  induction f with
  | zero => omega
  | succ f ih =>
    intro n acc hn
    by_cases h10 : n < 10
    · have hd : (Nat.digitChar n).isDigit = true := by
        interval_cases n <;> decide
      have ht : (Nat.digitChar n).toNat - 48 = n := by
        interval_cases n <;> decide
      simp [digitsRevF, if_pos h10, parseDigits, hd, ht]
    · have hdiv : n / 10 < f := by
        have h1 : n / 10 < n := Nat.div_lt_self (by omega) (by omega)
        omega
      have hm : n % 10 < 10 := Nat.mod_lt _ (by omega)
      have hd : (Nat.digitChar (n % 10)).isDigit = true := by
        interval_cases h : n % 10 <;> simp_all <;> decide
      have ht : (Nat.digitChar (n % 10)).toNat - 48 = n % 10 := by
        interval_cases h : n % 10 <;> simp_all <;> decide
      simp only [digitsRevF, if_neg h10, List.reverse_cons, parseDigits_append,
        ih (n / 10) acc hdiv]
      simp only [parseDigits, if_pos hd, ht]
      congr 1
      have : (acc * 10 ^ (digitsRevF f (n / 10)).length + n / 10) * 10 + n % 10 =
          acc * (10 ^ (digitsRevF f (n / 10)).length * 10) + (10 * (n / 10) + n % 10) := by
        ring
      rw [this, Nat.div_add_mod]
      simp [List.length_cons, pow_succ]

theorem parseNatList_natToStr (n : Nat) : parseNatList (natToStr n).toList = some n := by
  have hne : (digitsRevF (n + 1) n).reverse ≠ [] := by
    simpa using digitsRevF_ne_nil (n + 1) n (by omega)
  have hl : (natToStr n).toList = (digitsRevF (n + 1) n).reverse := rfl
  rw [hl]
  cases hr : (digitsRevF (n + 1) n).reverse with
  | nil => exact absurd hr hne
  | cons c cs =>
    have := parseDigits_digitsRevF (n + 1) n 0 (by omega)
    rw [hr] at this
    simpa [parseNatList] using this

theorem natToStr_head_isDigit (n : Nat) :
    ∀ c cs, (natToStr n).toList = c :: cs → c.isDigit = true := by
  intro c cs h
  have hmem : c ∈ (digitsRevF (n + 1) n).reverse := by
    have hl : (natToStr n).toList = (digitsRevF (n + 1) n).reverse := rfl
    rw [hl] at h
    rw [h]
    exact List.mem_cons_self c cs
  rw [List.mem_reverse] at hmem
  exact digitsRevF_isDigit (n + 1) n c hmem

theorem noNL_natToStr (n : Nat) : noNL (natToStr n) = true := by
  simp only [noNL, decide_eq_true_iff]
  intro hmem
  have hl : (natToStr n).toList = (digitsRevF (n + 1) n).reverse := rfl
  rw [hl, List.mem_reverse] at hmem
  exact absurd rfl (isDigit_ne_newline (digitsRevF_isDigit (n + 1) n _ hmem))

theorem noNL_intToStr (i : Int) : noNL (intToStr i) = true := by
  unfold intToStr
  by_cases hi : i < 0
  · rw [if_pos hi]
    simp only [noNL, decide_eq_true_iff, toList_append]
    intro hmem
    rcases List.mem_append.mp hmem with hm | hm
    · simp at hm
    · have := noNL_natToStr i.natAbs
      simp only [noNL, decide_eq_true_iff] at this
      exact this hm
  · rw [if_neg hi]; exact noNL_natToStr i.toNat

theorem parseInt_intToStr (i : Int) : parseInt (intToStr i) = some i := by
  unfold intToStr
  by_cases hi : i < 0
  · rw [if_pos hi]
    have hl : (("-" : String) ++ natToStr i.natAbs).toList =
        '-' :: (natToStr i.natAbs).toList := by
      rw [toList_append]; rfl
    simp only [parseInt, hl, if_pos rfl, parseNatList_natToStr, Option.map_some]
    have he : -(i.natAbs : Int) = i := by omega
    show some (-(i.natAbs : Int)) = some i
    rw [he]
  · rw [if_neg hi]
    cases hr : (natToStr i.toNat).toList with
    | nil =>
      have := parseNatList_natToStr i.toNat
      rw [hr] at this
      simp [parseNatList] at this
    | cons c cs =>
      have hd : c.isDigit = true := natToStr_head_isDigit i.toNat c cs hr
      have hcm : c ≠ '-' := isDigit_ne_minus hd
      have hp := parseNatList_natToStr i.toNat
      rw [hr] at hp
      simp only [parseInt, hr, if_neg hcm, hp, Option.map_some]
      have he : ((i.toNat : Nat) : Int) = i := by omega
      show some ((i.toNat : Nat) : Int) = some i
      rw [he]

/-! ## Membership and string-building helpers -/

theorem noNL_iff {s : String} : noNL s = true ↔ '\n' ∉ s.toList := by simp [noNL]

theorem noSp_iff {s : String} : noSp s = true ↔ ' ' ∉ s.toList := by simp [noSp]

theorem not_mem_cons3 {x a b c : Char} {X : List Char} (ha : x ≠ a) (hb : x ≠ b)
    (hc : x ≠ c) (hX : x ∉ X) : x ∉ a :: b :: c :: X := by
  intro h
  simp only [List.mem_cons] at h
  rcases h with h | h | h | h
  exacts [ha h, hb h, hc h, hX h]

theorem not_mem_append_cons {x s : Char} {a b : List Char} (ha : x ∉ a)
    (hs : x ≠ s) (hb : x ∉ b) : x ∉ a ++ s :: b := by
  intro h
  rcases List.mem_append.mp h with h | h
  · exact ha h
  · rcases List.mem_cons.mp h with h | h
    exacts [hs h, hb h]

theorem not_mem_concat {x s : Char} {a : List Char} (ha : x ∉ a) (hs : x ≠ s) :
    x ∉ a ++ [s] := by
  intro h
  rcases List.mem_append.mp h with h | h
  · exact ha h
  · rcases List.mem_cons.mp h with h | h
    · exact hs h
    · simp at h

theorem mk_concat_newline (s : String) : String.mk (s.toList ++ ['\n']) = s ++ "\n" := by
  have h : (s ++ "\n").toList = s.toList ++ ['\n'] := by rw [toList_append]; rfl
  rw [← h, mk_toList]

theorem append_newline_inj {a b : String} : a ++ "\n" = b ++ "\n" ↔ a = b := by
  constructor
  · intro h
    have h2 := congrArg String.toList h
    rw [toList_append, toList_append] at h2
    have h3 : a.toList = b.toList := List.append_cancel_right h2
    have := congrArg String.mk h3
    rwa [mk_toList, mk_toList] at this
  · intro h; rw [h]

theorem endsWithNL_append_newline (s : String) : endsWithNL (s ++ "\n") = true := by
  unfold endsWithNL
  rw [toList_append]
  show ((s.toList ++ ['\n']).getLast? == some '\n') = true
  rw [List.getLast?_concat]
  rfl

theorem pySplitChar_of_noNL {s : String} (h : noNL s = true) :
    pySplitChar '\n' s = [s] := by
  unfold pySplitChar
  rw [splitCharList_of_not_mem (noNL_iff.mp h)]
  simp [mk_toList]

/-! ## Scanner step lemmas -/

open ReplayTransport

theorem scanLines_nil (ser : Serializer) (req resp : List String) :
    scanLines ser req resp [] = [] := rfl

theorem scanLines_END (ser : Serializer) (req resp rest : List String) :
    scanLines ser req resp (END :: rest) =
      match get_whole_request_info ser req resp with
      | .ok info => .ok info :: scanLines ser [] [] rest
      | .error e => [.error e] := by
  simp [scanLines]

theorem scanLines_IN (ser : Serializer) (req resp rest : List String) (t : List Char) :
    scanLines ser req resp (String.mk ('#' :: '>' :: ' ' :: t) :: rest) =
      scanLines ser (req ++ [String.mk t]) resp rest := by
  have h1 : String.mk ('#' :: '>' :: ' ' :: t) ≠ END := by
    rw [show END = String.mk ['#', '#', '\n'] from rfl, Ne, mk_eq_mk]
    intro h
    injection h with ha hb
    injection hb with hb1 hb2
    exact absurd hb1 (by decide)
  have h2 : pyStartsWith IN (String.mk ('#' :: '>' :: ' ' :: t)) = true := by
    have hl : IN.toList = ['#', '>', ' '] := rfl
    simp [pyStartsWith, hl, List.isPrefixOf]
  have h3 : pyDrop 3 (String.mk ('#' :: '>' :: ' ' :: t)) = String.mk t := rfl
  simp [scanLines, h1, h2, h3]

theorem scanLines_OUT (ser : Serializer) (req resp rest : List String) (t : List Char) :
    scanLines ser req resp (String.mk ('#' :: '<' :: ' ' :: t) :: rest) =
      scanLines ser req (resp ++ [String.mk t]) rest := by
  have h1 : String.mk ('#' :: '<' :: ' ' :: t) ≠ END := by
    rw [show END = String.mk ['#', '#', '\n'] from rfl, Ne, mk_eq_mk]
    intro h
    injection h with ha hb
    injection hb with hb1 hb2
    exact absurd hb1 (by decide)
  have h2 : pyStartsWith IN (String.mk ('#' :: '<' :: ' ' :: t)) = false := by
    have hl : IN.toList = ['#', '>', ' '] := rfl
    have hc : ('>' == '<') = false := by decide
    simp [pyStartsWith, hl, List.isPrefixOf, hc]
  have h3 : pyStartsWith OUT (String.mk ('#' :: '<' :: ' ' :: t)) = true := by
    have hl : OUT.toList = ['#', '<', ' '] := rfl
    simp [pyStartsWith, hl, List.isPrefixOf]
  have h4 : pyDrop 3 (String.mk ('#' :: '<' :: ' ' :: t)) = String.mk t := rfl
  simp [scanLines, h1, h2, h3, h4]

theorem scanLines_skip (ser : Serializer) (req resp rest : List String) {line : String}
    (h1 : line ≠ END) (h2 : pyStartsWith IN line = false)
    (h3 : pyStartsWith OUT line = false) :
    scanLines ser req resp (line :: rest) = scanLines ser req resp rest := by
  simp [scanLines, h1, h2, h3]

/-! ## Decoding an encoded record -/

theorem gwri_encoded (ser : Serializer) (m u pTok bl rl : String) (status : Int)
    (hm1 : noNL m = true) (hm2 : noSp m = true)
    (hu1 : noNL u = true) (hu2 : noSp u = true)
    (hp1 : noNL pTok = true) (hp2 : noSp pTok = true)
    (hb : noNL bl = true) (hr : noNL rl = true) :
    get_whole_request_info ser
      [String.mk (m.toList ++ ' ' :: (u.toList ++ ' ' :: (pTok.toList ++ ['\n']))),
       String.mk (bl.toList ++ ['\n'])]
      [String.mk ((intToStr status).toList ++ ['\n']),
       String.mk (rl.toList ++ ['\n'])] =
      .ok { method := m, url := u, params := pTok,
            body := if bl = "-" then .str "-"
                    else stripIfStr (match ser.loads (bl ++ "\n") with
                                     | some d => d
                                     | none => .str (bl ++ "\n")),
            status := status, response := rl } := by
  have hsplit : pySplitChar ' '
      (String.mk (m.toList ++ ' ' :: (u.toList ++ ' ' :: (pTok.toList ++ ['\n'])))) =
      [m, u, String.mk (pTok.toList ++ ['\n'])] := by
    unfold pySplitChar
    show (splitCharList ' '
      (m.toList ++ ' ' :: (u.toList ++ ' ' :: (pTok.toList ++ ['\n'])))).map String.mk = _
    rw [splitCharList_append_sep _ (noSp_iff.mp hm2),
      splitCharList_append_sep _ (noSp_iff.mp hu2),
      splitCharList_of_not_mem (not_mem_concat (noSp_iff.mp hp2) (by decide))]
    simp [mk_toList]
  have hbody : joinSep "\n" [String.mk (bl.toList ++ ['\n'])] = bl ++ "\n" := by
    rw [joinSep_single, mk_concat_newline]
  have hresp : joinSep "\n" [String.mk (rl.toList ++ ['\n'])] = rl ++ "\n" := by
    rw [joinSep_single, mk_concat_newline]
  have hsh : String.mk ((intToStr status).toList ++ ['\n']) = intToStr status ++ "\n" :=
    mk_concat_newline _
  have hstatus : parseInt (rstripNL (intToStr status ++ "\n")) = some status := by
    rw [rstripNL_concat, rstripNL_of_noNL (noNL_intToStr status), parseInt_intToStr]
  have hprl : rstripNL (String.mk (pTok.toList ++ ['\n'])) = pTok := by
    rw [mk_concat_newline, rstripNL_concat, rstripNL_of_noNL hp1]
  simp only [get_whole_request_info, hsplit, hbody, hresp, hsh, hstatus, hprl,
    rstripNL_of_noNL hm1, rstripNL_of_noNL hu1]
  rw [rstripNL_concat, rstripNL_of_noNL hr]
  by_cases hbl : bl = "-"
  · subst hbl
    have hcond : ¬ (("-" : String) ++ "\n" ≠ "-\n") := by
      simp [show (("-" : String) ++ "\n") = "-\n" from rfl]
    rw [if_neg hcond, if_pos rfl]
    have hstrip : stripIfStr (.str (("-" : String) ++ "\n")) = .str "-" := by
      show Data.str (rstripNL (("-" : String) ++ "\n")) = Data.str "-"
      rw [rstripNL_concat, rstripNL_of_noNL (by decide)]
    rw [hstrip]
  · have hcond : (bl ++ "\n" ≠ "-\n") := by
      rw [show ("-\n" : String) = "-" ++ "\n" from rfl]
      intro h
      exact hbl (append_newline_inj.mp h)
    rw [if_pos hcond, if_neg hbl]

/-! ## Encoder shape lemmas -/

theorem empty_append (s : String) : "" ++ s = s := rfl

theorem format_request_eq (ser : Serializer) (m u : String)
    (params : List (String × String)) (body : Data) (bl : String)
    (hbl : bodyLine ser body = some bl) (hnl : noNL bl = true) :
    RecordTransport.format_request ser m u params body =
      some (IN ++ m ++ " " ++ u ++ " " ++ paramsToken params ++ "\n" ++ IN ++ bl ++ "\n") := by
  unfold RecordTransport.format_request
  by_cases ht : truthy body = true
  · cases hd : ser.dumps body with
    | none =>
      exfalso
      unfold bodyLine at hbl
      rw [if_pos ht, hd] at hbl
      simp at hbl
    | some b =>
      have hbl' : bl = if b ≠ "" then b else "-" := by
        unfold bodyLine at hbl
        rw [if_pos ht, hd] at hbl
        simp only [Option.map_some', Option.some.injEq] at hbl
        exact hbl.symm
      rw [if_pos ht]
      by_cases hbe : b = ""
      · subst hbe
        have hd2 : bl = "-" := by simpa using hbl'
        subst hd2
        simp [paramsToken]
      · have hd2 : bl = b := by simpa [hbe] using hbl'
        subst hd2
        simp [hbe, pySplitChar_of_noNL hnl, joinSep_single, paramsToken]
  · have hbl' : bl = "-" := by
      unfold bodyLine at hbl
      rw [if_neg ht] at hbl
      simpa using hbl.symm
    subst hbl'
    rw [if_neg ht]
    simp [paramsToken]

theorem format_response_eq (ser : Serializer) (status : Int) (respBody : Data)
    (rl : String) (hrl : respLine ser respBody = some rl) (hnl : noNL rl = true) :
    RecordTransport.format_response ser status respBody =
      some (OUT ++ intToStr status ++ "\n" ++ OUT ++ rl ++ "\n") := by
  unfold RecordTransport.format_response
  cases hd : ser.dumps respBody with
  | none =>
    exfalso
    unfold respLine at hrl
    rw [hd] at hrl
    simp at hrl
  | some b =>
    have hrl' : rl = if b ≠ "" then b else "-" := by
      unfold respLine at hrl
      rw [hd] at hrl
      simp only [Option.map_some', Option.some.injEq] at hrl
      exact hrl.symm
    by_cases hbe : b = ""
    · subst hbe
      have hd2 : rl = "-" := by simpa using hrl'
      subst hd2
      simp
    · have hd2 : rl = b := by simpa [hbe] using hrl'
      subst hd2
      simp [hbe, pySplitChar_of_noNL hnl, joinSep_single]

theorem endMark_of_resp (s : String) :
    RecordTransport.endMark (s ++ "\n") = END := by
  unfold RecordTransport.endMark
  rw [endsWithNL_append_newline]
  rfl

/-! ## Splitting one encoded record into its lines -/

theorem splitLinesStr_record (m u pTok bl S rl : String)
    (hm : noNL m = true) (hu : noNL u = true) (hp : noNL pTok = true)
    (hb : noNL bl = true) (hs : noNL S = true) (hr : noNL rl = true) :
    splitLinesStr ((IN ++ m ++ " " ++ u ++ " " ++ pTok ++ "\n" ++ IN ++ bl ++ "\n") ++
        (OUT ++ S ++ "\n" ++ OUT ++ rl ++ "\n") ++ END) =
      [String.mk ('#' :: '>' :: ' ' ::
          (m.toList ++ ' ' :: (u.toList ++ ' ' :: (pTok.toList ++ ['\n'])))),
       String.mk ('#' :: '>' :: ' ' :: (bl.toList ++ ['\n'])),
       String.mk ('#' :: '<' :: ' ' :: (S.toList ++ ['\n'])),
       String.mk ('#' :: '<' :: ' ' :: (rl.toList ++ ['\n'])),
       END] := by
  have hIN : IN.data = ['#', '>', ' '] := rfl
  have hOUT : OUT.data = ['#', '<', ' '] := rfl
  have hEND : END.data = ['#', '#', '\n'] := rfl
  have hSpc : (" " : String).data = [' '] := rfl
  have hNln : ("\n" : String).data = ['\n'] := rfl
  have hchars : ((IN ++ m ++ " " ++ u ++ " " ++ pTok ++ "\n" ++ IN ++ bl ++ "\n") ++
      (OUT ++ S ++ "\n" ++ OUT ++ rl ++ "\n") ++ END).toList =
      ('#' :: '>' :: ' ' :: (m.toList ++ ' ' :: (u.toList ++ ' ' :: pTok.toList))) ++ '\n' ::
      (('#' :: '>' :: ' ' :: bl.toList) ++ '\n' ::
       (('#' :: '<' :: ' ' :: S.toList) ++ '\n' ::
        (('#' :: '<' :: ' ' :: rl.toList) ++ '\n' ::
         ('#' :: '#' :: '\n' :: [])))) := by
    simp [toList_append, String.data_append, hIN, hOUT, hEND, hSpc, hNln]
  unfold splitLinesStr
  rw [hchars]
  have n1 : '\n' ∉ '#' :: '>' :: ' ' :: (m.toList ++ ' ' :: (u.toList ++ ' ' :: pTok.toList)) :=
    not_mem_cons3 (by decide) (by decide) (by decide)
      (not_mem_append_cons (noNL_iff.mp hm) (by decide)
        (not_mem_append_cons (noNL_iff.mp hu) (by decide) (noNL_iff.mp hp)))
  have n2 : '\n' ∉ '#' :: '>' :: ' ' :: bl.toList :=
    not_mem_cons3 (by decide) (by decide) (by decide) (noNL_iff.mp hb)
  have n3 : '\n' ∉ '#' :: '<' :: ' ' :: S.toList :=
    not_mem_cons3 (by decide) (by decide) (by decide) (noNL_iff.mp hs)
  have n4 : '\n' ∉ '#' :: '<' :: ' ' :: rl.toList :=
    not_mem_cons3 (by decide) (by decide) (by decide) (noNL_iff.mp hr)
  rw [splitLinesList_newline _ n1, splitLinesList_newline _ n2,
    splitLinesList_newline _ n3, splitLinesList_newline _ n4]
  have hfin : splitLinesList ('#' :: '#' :: '\n' :: []) = [['#', '#', '\n']] := rfl
  rw [hfin]
  have hENDmk : String.mk ['#', '#', '\n'] = END := rfl
  simp [hENDmk, List.cons_append]

/-! ## The round trip for one record -/

theorem scan_encode (ser : Serializer) (x : ExchangeIn) (enc : String)
    (rest : List String) (hwf : WF ser x = true) (henc : encodeX ser x = some enc) :
    scanLines ser [] [] (splitLinesStr enc ++ rest) =
      .ok (expectedInfo ser x) :: scanLines ser [] [] rest := by
  simp only [WF, Bool.and_eq_true] at hwf
  obtain ⟨⟨⟨⟨⟨⟨⟨h1, h2⟩, h3⟩, h4⟩, h5⟩, h6⟩, h7⟩, h8⟩ := hwf
  cases hblo : bodyLine ser x.body with
  | none => rw [hblo] at h7; simp at h7
  | some bl =>
  cases hrlo : respLine ser x.response with
  | none => rw [hrlo] at h8; simp at h8
  | some rl =>
  rw [hblo] at h7
  rw [hrlo] at h8
  unfold encodeX RecordTransport.encodeRecord at henc
  rw [format_request_eq ser x.method x.url x.params x.body bl hblo h7,
    format_response_eq ser x.status x.response rl hrlo h8] at henc
  simp only [] at henc
  rw [endMark_of_resp (OUT ++ intToStr x.status ++ "\n" ++ OUT ++ rl)] at henc
  have henc2 : (IN ++ x.method ++ " " ++ x.url ++ " " ++ paramsToken x.params ++ "\n" ++
      IN ++ bl ++ "\n") ++ (OUT ++ intToStr x.status ++ "\n" ++ OUT ++ rl ++ "\n") ++ END =
      enc := by
    simpa using henc
  subst henc2
  rw [splitLinesStr_record x.method x.url (paramsToken x.params) bl (intToStr x.status) rl
    h1 h3 h5 h7 (noNL_intToStr x.status) h8]
  simp only [List.cons_append, List.nil_append]
  rw [scanLines_IN, scanLines_IN, scanLines_OUT, scanLines_OUT, scanLines_END]
  simp only [List.nil_append, List.cons_append, List.singleton_append]
  rw [gwri_encoded ser x.method x.url (paramsToken x.params) bl rl x.status
    h1 h2 h3 h4 h5 h6 h7 h8]
  simp [expectedInfo, hblo, hrlo]

/-! ## Multi-record decoding -/

theorem getLast?_end_chunk (A : List Char) :
    (A ++ ['#', '#', '\n']).getLast? = some '\n' := by
  rw [show (['#', '#', '\n'] : List Char) = ['#', '#'] ++ ['\n'] from rfl,
    ← List.append_assoc, List.getLast?_concat]

theorem encodeX_getLast (ser : Serializer) (x : ExchangeIn) (a : String)
    (h : encodeX ser x = some a) : a.toList.getLast? = some '\n' := by
  unfold encodeX RecordTransport.encodeRecord at h
  cases hq : RecordTransport.format_request ser x.method x.url x.params x.body with
  | none => rw [hq] at h; simp at h
  | some req =>
    cases hp : RecordTransport.format_response ser x.status x.response with
    | none => rw [hq, hp] at h; simp at h
    | some resp =>
      rw [hq, hp] at h
      have ha : a = req ++ resp ++ RecordTransport.endMark resp := by
        simpa using h.symm
      subst ha
      unfold RecordTransport.endMark
      have hE : END.toList = ['#', '#', '\n'] := rfl
      rw [toList_append, toList_append, toList_append, hE, ← List.append_assoc]
      exact getLast?_end_chunk _

theorem splitLinesStr_append (a b : String)
    (h : a.toList = [] ∨ a.toList.getLast? = some '\n') :
    splitLinesStr (a ++ b) = splitLinesStr a ++ splitLinesStr b := by
  unfold splitLinesStr
  rw [toList_append, splitLinesList_append _ h, List.map_append]

theorem scan_encodeAll (ser : Serializer) (xs : List ExchangeIn) :
    ∀ (enc : String) (rest : List String), (∀ x ∈ xs, WF ser x = true) →
    encodeAll ser xs = some enc →
    scanLines ser [] [] (splitLinesStr enc ++ rest) =
      (xs.map fun x => .ok (expectedInfo ser x)) ++ scanLines ser [] [] rest := by
  induction xs with
  | nil =>
    intro enc rest _ henc
    have he : enc = "" := by simpa [encodeAll] using henc.symm
    subst he
    rfl
  | cons x xs ih =>
    intro enc rest hwf henc
    unfold encodeAll at henc
    cases hx : encodeX ser x with
    | none => rw [hx] at henc; simp at henc
    | some a =>
      cases hxs : encodeAll ser xs with
      | none => rw [hx, hxs] at henc; simp at henc
      | some b =>
        rw [hx, hxs] at henc
        have he : a ++ b = enc := by simpa using henc
        subst he
        rw [splitLinesStr_append a b (Or.inr (encodeX_getLast ser x a hx)),
          List.append_assoc,
          scan_encode ser x a (splitLinesStr b ++ rest) (hwf x (by simp)) hx,
          ih b rest (fun y hy => hwf y (by simp [hy])) hxs]
        simp

theorem pullAt_map_ok (l : List Info) : ∀ (k : Nat) (hk : k < l.length),
    pullAt (l.map .ok) k = .ok (l.get ⟨k, hk⟩) := by
  induction l with
  | nil => intro k hk; simp at hk
  | cons a as ih =>
    intro k hk
    cases k with
    | zero => rfl
    | succ k => exact ih k (by simpa using hk)

theorem pullAt_map_ok_length (l : List Info) :
    pullAt (l.map .ok) l.length = .error .replayLogExceeded := by
  induction l with
  | nil => rfl
  | cons a as ih => exact ih

/-! ## Claim theorems -/

/-- C1.  Whenever the next recorded exchange on the cursor is a 2xx
request/response pair whose recorded request matches the incoming call
(per the program's own `check_match` verifier, after body normalization),
`ReplayTransport.perform_request` returns the recorded status with the
deserialized recorded response body, and the live-service connection comes
back untouched: zero calls are made to it. -/
theorem c1_replay_returns_recorded (ser : Serializer) (conn : Connection)
    (info : Info) (rest : List (Except PErr Info)) (method url : String)
    (params : List (String × String)) (body nb respData : Data)
    (hn : normalizeBody ser body = some nb)
    (hmatch : (check_match info (mkCurrent method url params nb)).1 = true)
    (hr : ser.loads info.response = some respData)
    (hs : 200 ≤ info.status ∧ info.status < 300) :
    ReplayTransport.perform_request ser conn (.ok info :: rest) method url params body =
      (.ok (info.status, respData), rest, conn) := by
  have hg : get_next_replay ser (.ok info :: rest) method url params nb =
      (.ok (info.status, respData), rest) := by
    simp only [get_next_replay, hmatch]
    simp [hr]
  simp only [ReplayTransport.perform_request, hn, hg]
  rw [if_pos hs]

/-- Witness for C1: the spec's example transcript recording `GET /myindex`
with status 200 and body `{"key": "value"}` replays to
`(200, {"key": "value"})` with the connection call log still empty. -/
theorem c1_replay_witness :
    ReplayTransport.perform_request esSerializer (Connection.mk [])
        (replayOf esSerializer
          (splitLinesStr "#> GET /myindex -\n#> -\n#< 200\n#< \x7b\"key\": \"value\"\x7d\n##\n"))
        "GET" "/myindex" [] .null =
      (.ok (200, .obj [("key", .pstr "value")]), [], Connection.mk []) := by
  have hst : replayOf esSerializer
      (splitLinesStr "#> GET /myindex -\n#> -\n#< 200\n#< \x7b\"key\": \"value\"\x7d\n##\n") =
      [.ok (Info.mk "GET" "/myindex" "-" (.str "-") 200 "\x7b\"key\": \"value\"\x7d")] := by
    decide
  rw [hst]
  exact c1_replay_returns_recorded esSerializer (Connection.mk [])
    (Info.mk "GET" "/myindex" "-" (.str "-") 200 "\x7b\"key\": \"value\"\x7d")
    [] "GET" "/myindex" [] .null .null (.obj [("key", .pstr "value")])
    (by decide) (by decide) (by decide) (by decide)

/-- C2.  Round trip of the transcript codec: encoding one well-formed
exchange with `format_request`, `format_response` and the end sentinel, then
decoding the resulting text with the replay-side scanner, yields exactly one
decoded exchange carrying the same method, url, params token, status and
(serialized) response, and the request body modulo trailing-newline
stripping and best-effort deserialization (`expectedInfo`). -/
theorem c2_codec_round_trip (ser : Serializer) (x : ExchangeIn) (enc : String)
    (hwf : WF ser x = true) (henc : encodeX ser x = some enc) :
    replayOf ser (splitLinesStr enc) = [.ok (expectedInfo ser x)] := by
  have h := scan_encode ser x enc [] hwf henc
  simpa [replayOf, scanLines_nil] using h

/-- Witness for C2 at a concrete exchange. -/
theorem c2_codec_round_trip_witness :
    replayOf esSerializer (splitLinesStr
        "#> GET /myindex2 -\n#> \x7b\"req\": \"body\"\x7d\n#< 200\n#< \x7b\"key\": \"value2\"\x7d\n##\n") =
      [.ok (expectedInfo esSerializer
        ⟨"GET", "/myindex2", [], .obj [("req", .pstr "body")], 200,
          .obj [("key", .pstr "value2")]⟩)] :=
  c2_codec_round_trip esSerializer
    ⟨"GET", "/myindex2", [], .obj [("req", .pstr "body")], 200,
      .obj [("key", .pstr "value2")]⟩
    "#> GET /myindex2 -\n#> \x7b\"req\": \"body\"\x7d\n#< 200\n#< \x7b\"key\": \"value2\"\x7d\n##\n"
    (by decide) (by decide)

/-- C3.  A transcript of N well-formed recorded exchanges decodes to exactly
N exchanges in recording order; the k-th pull on a fresh cursor yields the
k-th exchange, the (N+1)-th pull yields `ReplayLogExceededError`, and an
exhausted cursor always maps to `ReplayLogExceededError` through
`get_next_replay` — never silent end-of-stream. -/
theorem c3_cursor_yields_all_in_order (ser : Serializer) (xs : List ExchangeIn)
    (enc : String) (hwf : ∀ x ∈ xs, WF ser x = true)
    (henc : encodeAll ser xs = some enc) :
    replayOf ser (splitLinesStr enc) = (xs.map fun x => .ok (expectedInfo ser x)) ∧
    (∀ (k : Nat) (hk : k < xs.length),
      pullAt (replayOf ser (splitLinesStr enc)) k =
        .ok (expectedInfo ser (xs.get ⟨k, hk⟩))) ∧
    pullAt (replayOf ser (splitLinesStr enc)) xs.length = .error .replayLogExceeded ∧
    (∀ (method url : String) (params : List (String × String)) (body : Data),
      get_next_replay ser [] method url params body = (.error .replayLogExceeded, [])) := by
  have h1 : replayOf ser (splitLinesStr enc) =
      (xs.map fun x => .ok (expectedInfo ser x)) := by
    have h := scan_encodeAll ser xs enc [] hwf henc
    simpa [replayOf, scanLines_nil] using h
  have h2 : replayOf ser (splitLinesStr enc) =
      (xs.map (expectedInfo ser)).map Except.ok := by
    rw [h1, List.map_map]
    rfl
  refine ⟨h1, ?_, ?_, fun _ _ _ _ => rfl⟩
  · intro k hk
    rw [h2, pullAt_map_ok (xs.map (expectedInfo ser)) k (by simpa using hk)]
    simp
  · rw [h2]
    have := pullAt_map_ok_length (xs.map (expectedInfo ser))
    simpa using this

/-- Witness for C3 at a concrete two-exchange transcript. -/
theorem c3_cursor_witness :
    replayOf esSerializer (splitLinesStr
        ("#> GET /myindex -\n#> -\n#< 200\n#< \x7b\"key\": \"value\"\x7d\n##\n" ++
         "#> GET /myindex2 -\n#> \x7b\"req\": \"body\"\x7d\n#< 200\n#< \x7b\"key\": \"value2\"\x7d\n##\n")) =
      [.ok (expectedInfo esSerializer ⟨"GET", "/myindex", [], .null, 200,
          .obj [("key", .pstr "value")]⟩),
       .ok (expectedInfo esSerializer ⟨"GET", "/myindex2", [],
          .obj [("req", .pstr "body")], 200, .obj [("key", .pstr "value2")]⟩)] ∧
    pullAt (replayOf esSerializer (splitLinesStr
        ("#> GET /myindex -\n#> -\n#< 200\n#< \x7b\"key\": \"value\"\x7d\n##\n" ++
         "#> GET /myindex2 -\n#> \x7b\"req\": \"body\"\x7d\n#< 200\n#< \x7b\"key\": \"value2\"\x7d\n##\n"))) 2 =
      .error .replayLogExceeded := by
  have h := c3_cursor_yields_all_in_order esSerializer
    [⟨"GET", "/myindex", [], .null, 200, .obj [("key", .pstr "value")]⟩,
     ⟨"GET", "/myindex2", [], .obj [("req", .pstr "body")], 200,
        .obj [("key", .pstr "value2")]⟩]
    ("#> GET /myindex -\n#> -\n#< 200\n#< \x7b\"key\": \"value\"\x7d\n##\n" ++
     "#> GET /myindex2 -\n#> \x7b\"req\": \"body\"\x7d\n#< 200\n#< \x7b\"key\": \"value2\"\x7d\n##\n")
    (by decide) (by decide)
  exact ⟨h.1, h.2.2.1⟩

/-- C4.  The match verifier requires exact equality on every field of the
comparison record: it returns true iff method, url, params and body all
equal the recorded fields; the first unequal field short-circuits to false
with a diagnostic log naming exactly the two differing values; and any
mismatch — in particular a differing url — makes `get_next_replay` fail
with `RequestMatchError`. -/
theorem checkFields_eq_step (v r : Data) (rest : List (Data × Data)) (h : v = r) :
    checkFields ((v, r) :: rest) = checkFields rest := by
  simp [checkFields, h]

theorem checkFields_ne_step (v r : Data) (rest : List (Data × Data)) (h : v ≠ r) :
    checkFields ((v, r) :: rest) = (false, [(v, r)]) := by
  simp [checkFields, h]

theorem checkFields_fst_true_iff (ps : List (Data × Data)) :
    (checkFields ps).1 = true ↔ ∀ p ∈ ps, p.1 = p.2 := by
  induction ps with
  | nil => simp [checkFields]
  | cons p rest ih =>
    obtain ⟨v, r⟩ := p
    by_cases h : v = r
    · simp [checkFields, h, ih]
    · simp [checkFields, h]

theorem c4_match_is_exact_equality (replay : Info) (cur : Current) :
    ((check_match replay cur).1 = true ↔
      (cur.method = replay.method ∧ cur.url = replay.url ∧
       cur.params = replay.params ∧ cur.body = replay.body)) ∧
    (cur.method ≠ replay.method →
      check_match replay cur = (false, [(.str cur.method, .str replay.method)])) ∧
    (cur.method = replay.method → cur.url ≠ replay.url →
      check_match replay cur = (false, [(.str cur.url, .str replay.url)])) ∧
    (cur.method = replay.method → cur.url = replay.url →
      cur.params ≠ replay.params →
      check_match replay cur = (false, [(.str cur.params, .str replay.params)])) ∧
    (cur.method = replay.method → cur.url = replay.url →
      cur.params = replay.params → cur.body ≠ replay.body →
      check_match replay cur = (false, [(cur.body, replay.body)])) ∧
    (∀ (ser : Serializer) (rest : List (Except PErr Info))
        (method url : String) (params : List (String × String)) (body : Data),
      url ≠ replay.url →
      (get_next_replay ser (.ok replay :: rest) method url params body).1 =
        .error .requestMatch) := by
  have key : ∀ c : Current, (check_match replay c).1 = true ↔
      (c.method = replay.method ∧ c.url = replay.url ∧
       c.params = replay.params ∧ c.body = replay.body) := by
    intro c
    unfold check_match matchPairs
    rw [checkFields_fst_true_iff]
    simp [Data.str.injEq]
  refine ⟨key cur, ?_, ?_, ?_, ?_, ?_⟩
  · intro hm
    unfold check_match matchPairs
    rw [checkFields_ne_step _ _ _ (by simp [hm])]
  · intro hm hu
    unfold check_match matchPairs
    rw [checkFields_eq_step _ _ _ (by rw [hm]),
      checkFields_ne_step _ _ _ (by simp [hu])]
  · intro hm hu hp
    unfold check_match matchPairs
    rw [checkFields_eq_step _ _ _ (by rw [hm]),
      checkFields_eq_step _ _ _ (by rw [hu]),
      checkFields_ne_step _ _ _ (by simp [hp])]
  · intro hm hu hp hb
    unfold check_match matchPairs
    rw [checkFields_eq_step _ _ _ (by rw [hm]),
      checkFields_eq_step _ _ _ (by rw [hu]),
      checkFields_eq_step _ _ _ (by rw [hp]),
      checkFields_ne_step _ _ _ hb]
  · intro ser rest method url params body hu
    have hf : (check_match replay (mkCurrent method url params body)).1 = false := by
      cases hc : (check_match replay (mkCurrent method url params body)).1 with
      | false => rfl
      | true =>
        have := (key (mkCurrent method url params body)).mp hc
        exact absurd this.2.1 hu
    simp only [get_next_replay, hf]
    simp

/-- Witness for C4: a replay call whose url differs from the recorded
exchange logs the two urls and fails with `RequestMatchError`. -/
theorem c4_match_witness :
    check_match
        (Info.mk "GET" "/myindex" "-" (.str "-") 200 "\x7b\"key\": \"value\"\x7d")
        (Current.mk "GET" "/badreq" "-" (.str "-")) =
      (false, [(.str "/badreq", .str "/myindex")]) ∧
    (get_next_replay esSerializer
        [.ok (Info.mk "GET" "/myindex" "-" (.str "-") 200 "\x7b\"key\": \"value\"\x7d")]
        "GET" "/badreq" [] .null).1 = .error .requestMatch := by
  have h := c4_match_is_exact_equality
    (Info.mk "GET" "/myindex" "-" (.str "-") 200 "\x7b\"key\": \"value\"\x7d")
    (Current.mk "GET" "/badreq" "-" (.str "-"))
  exact ⟨h.2.2.1 rfl (by decide),
    h.2.2.2.2.2 esSerializer [] "GET" "/badreq" [] .null (by decide)⟩

/-- C5.  `ReplayTransport.perform_request` normalizes the incoming body by
serializing and opportunistically deserializing it (`normalizeBody`); any
replay call whose normalized body equals the recorded exchange's decoded
body — and whose other fields match — succeeds and returns the stored
status with the stored response, unchanged. -/
theorem c5_normalized_body_matches (ser : Serializer) (conn : Connection)
    (info : Info) (rest : List (Except PErr Info)) (method url : String)
    (params : List (String × String)) (body nb : Data) (respData : Data)
    (hn : normalizeBody ser body = some nb)
    (hm : method = info.method) (hu : url = info.url)
    (hp : (if params.isEmpty then "-" else urlencode params) = info.params)
    (hb : (if truthy nb then nb else .str "-") = info.body)
    (hr : ser.loads info.response = some respData)
    (hs : 200 ≤ info.status ∧ info.status < 300) :
    ReplayTransport.perform_request ser conn (.ok info :: rest) method url params body =
      (.ok (info.status, respData), rest, conn) := by
  have hcm : (check_match info (mkCurrent method url params nb)).1 = true := by
    unfold check_match matchPairs mkCurrent
    rw [checkFields_fst_true_iff]
    intro p hmem
    simp only [List.mem_cons, List.not_mem_nil, or_false] at hmem
    rcases hmem with rfl | rfl | rfl | rfl
    · show Data.str method = Data.str info.method
      rw [hm]
    · show Data.str url = Data.str info.url
      rw [hu]
    · show Data.str (if params.isEmpty then "-" else urlencode params) = Data.str info.params
      rw [hp]
    · exact hb
  have hg : get_next_replay ser (.ok info :: rest) method url params nb =
      (.ok (info.status, respData), rest) := by
    simp only [get_next_replay, hcm]
    simp [hr]
  simp only [ReplayTransport.perform_request, hn, hg]
  rw [if_pos hs]

/-- Witness for C5: the second recorded exchange (body text
`{"req": "body"}`) matches a replay call whose body is the textually
different `{"req": \n "body"}`, and the stored response comes back. -/
theorem c5_normalized_body_witness :
    ReplayTransport.perform_request esSerializer (Connection.mk [])
        [.ok (Info.mk "GET" "/myindex2" "-" (.obj [("req", .pstr "body")]) 200
          "\x7b\"key\": \"value2\"\x7d")]
        "GET" "/myindex2" [] (.str "\x7b\"req\": \n \"body\"\x7d") =
      (.ok (200, .obj [("key", .pstr "value2")]), [], Connection.mk []) :=
  c5_normalized_body_matches esSerializer (Connection.mk [])
    (Info.mk "GET" "/myindex2" "-" (.obj [("req", .pstr "body")]) 200
      "\x7b\"key\": \"value2\"\x7d")
    [] "GET" "/myindex2" [] (.str "\x7b\"req\": \n \"body\"\x7d")
    (.obj [("req", .pstr "body")]) (.obj [("key", .pstr "value2")])
    (by decide) rfl rfl (by decide) (by decide) (by decide) (by decide)

/-- C6 counterexample.  The claim says any transcript containing a line
matching neither marker nor sentinel raises `ReplayFileParseError` when
consumed; but the scanner silently skips such lines, so a transcript
consisting only of such a line yields an empty cursor and the pull raises
`ReplayLogExceededError` instead. -/
theorem c6_skipped_line_no_parse_error :
    replayOf esSerializer (splitLinesStr "this line matches no marker\n") = [] ∧
    get_next_replay esSerializer
        (replayOf esSerializer (splitLinesStr "this line matches no marker\n"))
        "GET" "/" [] .null = (.error .replayLogExceeded, []) := by
  decide

/-- C6 (amended).  A request header line whose token count is not three
raises `ReplayFileParseError` (wrapping the underlying `ValueError`) at the
moment the broken record is consumed, not at scan time: decoding the record
produces the error entry when the sentinel flushes it, and pulling that
entry through `get_next_replay` wraps it; lines matching neither marker nor
sentinel are silently skipped by the scanner, not errors. -/
theorem c6_wrong_token_count_parse_error (ser : Serializer) :
    (∀ (hd : String) (tl resp : List String), (pySplitChar ' ' hd).length ≠ 3 →
      get_whole_request_info ser (hd :: tl) resp = .error .valueError) ∧
    (∀ (hd : String) (tl resp : List String) (rest : List String),
      (pySplitChar ' ' hd).length ≠ 3 →
      scanLines ser (hd :: tl) resp (END :: rest) = [.error .valueError]) ∧
    (∀ (e : PErr) (rest : List (Except PErr Info)) (method url : String)
        (params : List (String × String)) (body : Data),
      get_next_replay ser (.error e :: rest) method url params body =
        (.error (.replayFileParse e), rest)) ∧
    (∀ (req resp rest : List String) (line : String),
      line ≠ END → pyStartsWith IN line = false → pyStartsWith OUT line = false →
      scanLines ser req resp (line :: rest) = scanLines ser req resp rest) := by
  have p1 : ∀ (hd : String) (tl resp : List String),
      (pySplitChar ' ' hd).length ≠ 3 →
      get_whole_request_info ser (hd :: tl) resp = .error .valueError := by
    intro hd tl resp hlen
    cases h1 : pySplitChar ' ' hd with
    | nil => simp [get_whole_request_info, h1]
    | cons a t1 =>
      cases t1 with
      | nil => simp [get_whole_request_info, h1]
      | cons b t2 =>
        cases t2 with
        | nil => simp [get_whole_request_info, h1]
        | cons c t3 =>
          cases t3 with
          | nil => exact absurd (by simp [h1]) hlen
          | cons d t4 => simp [get_whole_request_info, h1]
  refine ⟨p1, ?_, ?_, ?_⟩
  · intro hd tl resp rest hlen
    rw [scanLines_END, p1 hd tl resp hlen]
  · intro e rest method url params body
    rfl
  · intro req resp rest line h1 h2 h3
    exact scanLines_skip ser req resp rest h1 h2 h3

/-- Witness for the amended C6 at the malformed header from the repository's
own test transcript. -/
theorem c6_wrong_token_count_witness :
    get_whole_request_info esSerializer ["some ##< odd but similar \n"] [] =
      .error .valueError ∧
    get_next_replay esSerializer [.error .valueError] "GET" "/" [] .null =
      (.error (.replayFileParse .valueError), []) ∧
    scanLines esSerializer [] [] [" stray text"] = scanLines esSerializer [] [] [] := by
  have h := c6_wrong_token_count_parse_error esSerializer
  exact ⟨h.1 "some ##< odd but similar \n" [] [] (by decide),
    h.2.2.1 .valueError [] "GET" "/" [] .null,
    h.2.2.2 [] [] [] " stray text" (by decide) (by decide) (by decide)⟩

/-- C7.  Whatever the outcome of the real call (success or transport
failure) and whatever exception the transcript-logging step raises — a
serializer failure in a formatter or an I/O failure on any write or flush —
`RecordTransport.perform_request` swallows the logging failure and the
caller observes exactly the real call's outcome: the original tuple on
success, the original transport exception re-raised otherwise. -/
theorem c7_record_logging_never_masks (ser : Serializer)
    (live : Except RecordTransport.TErr (Int × Data))
    (recfile : Option RecordTransport.Handle) (method url : String)
    (params : List (String × String)) (body : Data) :
    (RecordTransport.perform_request ser live recfile method url params body).1 =
      live := by
  cases live with
  | ok v => obtain ⟨s, d⟩ := v; rfl
  | error e => rfl

/-- C8.  When the matched replayed exchange carries a status outside
200–299, `ReplayTransport.perform_request` does not return the tuple: it
delegates to the connection collaborator's error hook with the stored
status and deserialized body (modelled as the `raiseError` outcome).  For a
2xx status it returns `(status, data)` normally. -/
theorem c8_non_2xx_delegates_raise (ser : Serializer) (conn : Connection)
    (st : List (Except PErr Info)) (method url : String)
    (params : List (String × String)) (body nb : Data) (status : Int)
    (data : Data) (st' : List (Except PErr Info))
    (hn : normalizeBody ser body = some nb)
    (hg : get_next_replay ser st method url params nb = (.ok (status, data), st')) :
    (¬ (200 ≤ status ∧ status < 300) →
      ReplayTransport.perform_request ser conn st method url params body =
        (.error (.raiseError status data), st', conn)) ∧
    ((200 ≤ status ∧ status < 300) →
      ReplayTransport.perform_request ser conn st method url params body =
        (.ok (status, data), st', conn)) := by
  constructor
  · intro h
    simp only [ReplayTransport.perform_request, hn, hg]
    rw [if_neg h]
  · intro h
    simp only [ReplayTransport.perform_request, hn, hg]
    rw [if_pos h]

/-- Witness for C8: a stored 404 surfaces through the connection's error
hook with the stored status and deserialized body. -/
theorem c8_non_2xx_witness :
    ReplayTransport.perform_request esSerializer (Connection.mk [])
        (replayOf esSerializer
          (splitLinesStr "#> GET /missing -\n#> -\n#< 404\n#< \x7b\"e\": \"x\"\x7d\n##\n"))
        "GET" "/missing" [] .null =
      (.error (.raiseError 404 (.obj [("e", .pstr "x")])), [], Connection.mk []) := by
  have h := c8_non_2xx_delegates_raise esSerializer (Connection.mk [])
    (replayOf esSerializer
      (splitLinesStr "#> GET /missing -\n#> -\n#< 404\n#< \x7b\"e\": \"x\"\x7d\n##\n"))
    "GET" "/missing" [] .null .null 404 (.obj [("e", .pstr "x")]) []
    (by decide) (by decide)
  exact h.1 (by decide)

/-- C9.  Resetting the replay cursor is idempotent, and resetting after any
sequence of mid-sequence pulls restores exactly the state a fresh reset
produces — so replaying from the start reproduces the same ordered
exchanges as the first pass. -/
theorem c9_reset_idempotent (ser : Serializer) :
    (∀ t : State, reset_replay_log ser (reset_replay_log ser t) =
      reset_replay_log ser t) ∧
    (∀ (t : State) (args : List PullArgs),
      reset_replay_log ser (applyPulls ser args (reset_replay_log ser t)) =
        reset_replay_log ser t) := by
  have hcontent : ∀ t t' : State, t'.recfile.content = t.recfile.content →
      reset_replay_log ser t' = reset_replay_log ser t := by
    intro t t' h
    unfold reset_replay_log create_replay_iterator RFile.seek0 RFile.linesFrom
    simp [h]
  have hpull : ∀ (args : List PullArgs) (s : State),
      (applyPulls ser args s).recfile = s.recfile := by
    intro args
    induction args with
    | nil => intro s; rfl
    | cons a as ih =>
      intro s
      show (applyPulls ser as (pull ser s a.method a.url a.params a.body).2).recfile = _
      rw [ih]
      rcases hg : get_next_replay ser s.replay_iterator a.method a.url a.params a.body
        with ⟨r, rest⟩
      simp [pull, hg]
  constructor
  · intro t
    exact hcontent t (reset_replay_log ser t) rfl
  · intro t args
    apply hcontent
    rw [hpull]
    simp [reset_replay_log, RFile.seek0]

/-- C10.  Constructing a `ReplayTransport` with the `recfile` option absent
or `None`, or with an empty path string, always raises before any call can
be made: `prepare_output_file` yields `None` and the constructor's reset
immediately calls `seek` on it (`AttributeError`).  Replay mode never
degrades to pass-through operation. -/
theorem c10_missing_recfile_raises (ser : Serializer) (fs : String → RFile) :
    ReplayTransport.init ser fs .noneOpt = .error .attributeError ∧
    ReplayTransport.init ser fs (.path "") = .error .attributeError := by
  exact ⟨rfl, rfl⟩

end ESReplay
